import Mathlib

/-!
Verification of the alias resolution and command-expansion engine of the
`epithet` command-alias runner.  The definitions below are a shallow
embedding of `src/epithet_config.rs` (tokenizer, `@`-expansion pre-pass,
`{N}` template substitution, alias / sub-alias dispatch, And / Or / Command
sequencing) and of the alias-invocation path of `src/main.rs`.  The OS is
abstracted by two parameters: `tilde` (the `shellexpand::tilde` home
expansion applied to the first token) and `inv` (the process spawner, a map
from the spawned argument vector to the child's termination status).
-/

namespace Epithet

/-- Rust's `char::is_whitespace` (Unicode `White_Space` property). -/
def isWhitespaceRust (c : Char) : Bool :=
  c.toNat = 0x09 || c.toNat = 0x0A || c.toNat = 0x0B || c.toNat = 0x0C || c.toNat = 0x0D ||
  c.toNat = 0x20 || c.toNat = 0x85 || c.toNat = 0xA0 || c.toNat = 0x1680 ||
  (0x2000 ≤ c.toNat && c.toNat ≤ 0x200A) ||
  c.toNat = 0x2028 || c.toNat = 0x2029 || c.toNat = 0x202F || c.toNat = 0x205F ||
  c.toNat = 0x3000

/-- The scanner state of `tokenize_string` (`epithet_config.rs:148-178`):
finished tokens, the current token (as its character list, in order), and the
two flags `in_quotes` / `in_escape`. -/
structure TokenizeState where
  tokens : List String
  current : List Char
  in_quotes : Bool
  in_escape : Bool
deriving DecidableEq

/-- One step of the scanner of `tokenize_string`: the body of the
`string.chars().for_each(|ch| match ch ...)` closure, arms in source order. -/
def tokenize_step (st : TokenizeState) (ch : Char) : TokenizeState :=
  if ch = '\\' && !st.in_escape then
    { st with in_escape := true }
  else if ch = '\"' && !st.in_escape then
    { st with in_quotes := !st.in_quotes }
  else if isWhitespaceRust ch && !st.in_quotes && !st.in_escape then
    if st.current.isEmpty then st
    else { st with tokens := st.tokens ++ [String.mk st.current], current := [] }
  else
    { st with current := st.current ++ [ch], in_escape := false }

/-- The final flush of `tokenize_string` (`epithet_config.rs:173-175`). -/
def tokenize_finish (st : TokenizeState) : List String :=
  if st.current.isEmpty then st.tokens else st.tokens ++ [String.mk st.current]

/-- `tokenize_string` (`epithet_config.rs:148-178`): fold the scanner over the
characters, then flush a non-empty final token. -/
def tokenize_string (s : String) : List String :=
  tokenize_finish (s.data.foldl tokenize_step ⟨[], [], false, false⟩)

/-- Helper for the spec-side whitespace split: accumulate the current word. -/
def wordsAux : List Char → List Char → List String
  | [], cur => if cur.isEmpty then [] else [String.mk cur]
  | c :: cs, cur =>
    if isWhitespaceRust c then
      (if cur.isEmpty then [] else [String.mk cur]) ++ wordsAux cs []
    else wordsAux cs (cur ++ [c])

/-- Modelled from the spec: splitting a string on whitespace, dropping empty
fields (the comparison side of the tokenizer idempotence property). -/
def splitWhitespaceSpec (s : String) : List String := wordsAux s.data []

/-- Rust's `s.starts_with(c)` for a single-character pattern. -/
def starts_with_char (s : String) (c : Char) : Bool :=
  match s.data with
  | c0 :: _ => c0 = c
  | [] => false

/-- Rust's `s.ends_with(c)` for a single-character pattern. -/
def ends_with_char (s : String) (c : Char) : Bool :=
  match s.data.getLast? with
  | some c0 => c0 = c
  | none => false

/-- Rust's `arg.trim_start_matches("@")`: drop every leading `@`. -/
def trim_start_matches_at (s : String) : String :=
  String.mk (s.data.dropWhile (fun c => c = '@'))

/-- Rust's `str::parse::<usize>()`: an optional leading `+`, then one or more
ASCII digits, rejecting the empty digit string and values beyond
`usize::MAX` (64-bit). -/
def parse_usize (s : String) : Option Nat :=
  let cs : List Char :=
    match s.data with
    | '+' :: rest => rest
    | cs => cs
  if cs.isEmpty then none
  else if cs.all (fun c => c.isDigit) then
    let v := cs.foldl (fun a c => a * 10 + (c.toNat - 48)) 0
    if v < 2 ^ 64 then some v else none
  else none

/-- The expansion table (`HashMap<String, String>`), as a lookup function. -/
abbrev Expansions := String → Option String

/-- Hash-map insertion (`expansions.insert(key, value)`) on the lookup-function
representation of the table. -/
def insertExp (m : Expansions) (k v : String) : Expansions :=
  fun x => if x = k then some v else m x

/-- The placeholder test of `Execution::expand_command`
(`epithet_config.rs:269-270`): the token starts with `{`, ends with `}`, and
the characters between them parse as a `usize`. -/
def placeholder_index (token : String) : Option Nat :=
  if starts_with_char token '{' && ends_with_char token '}' then
    parse_usize (String.mk ((token.data.drop 1).dropLast))
  else none

/-- One step of the token map of `Execution::expand_command`
(`epithet_config.rs:266-280`), threading the `arguments_copy` consumption
vector and the output tokens. -/
def expand_step (arguments : List String) (st : List (Option String) × List String)
    (token : String) : List (Option String) × List String :=
  match placeholder_index token with
  | some position =>
    if position < arguments.length then
      (st.1.set position none, st.2 ++ [arguments.getD position ""])
    else (st.1, st.2 ++ [token])
  | none => (st.1, st.2 ++ [token])

/-- `Execution::expand_command` (`epithet_config.rs:261-285`): tokenize the
template, substitute in-bounds `{N}` placeholders from `arguments` (marking
them consumed in `arguments_copy`), then append the unconsumed arguments. -/
def expand_command (command : String) (arguments : List String) : List String :=
  let command_tokens := tokenize_string command
  let res := command_tokens.foldl (expand_step arguments) (arguments.map some, [])
  res.2 ++ res.1.filterMap id

/-- The argument pre-pass of `Execution::get_arguments`
(`epithet_config.rs:245-256`): `@`-prefixed arguments are looked up (after
stripping every leading `@`) and the found value — or, on a miss, the
original argument — is re-tokenized; other arguments pass through. -/
def argument_pre_pass (arguments : List String) (expansions : Expansions) : List String :=
  arguments.flatMap (fun arg =>
    if starts_with_char arg '@' then
      let key := trim_start_matches_at arg
      let value := (expansions key).getD arg
      tokenize_string value
    else [arg])

/-- `Execution::get_arguments` (`epithet_config.rs:239-259`): the pre-pass
followed by `expand_command` (the `&self` receiver is unused in the source). -/
def get_arguments (command : String) (arguments : List String)
    (expansions : Expansions) : List String :=
  expand_command command (argument_pre_pass arguments expansions)

/-- The in-bounds placeholder reference of one template token against a given
argument list: the declarative view of what `expand_step` substitutes. -/
def placeholder_ref (arguments : List String) (token : String) : Option Nat :=
  match placeholder_index token with
  | some n => if n < arguments.length then some n else none
  | none => none

/-- Modelled from the spec: the template pass described in §4.3, with the
`{N}` bound checked against `originalArgs` and the replacement (and the
consumed indices, and the appended leftovers) taken from `resolvedArgs`.
Instantiating `originalArgs := resolvedArgs` gives the behavior of the
code's `expand_command`. -/
def template_pass_spec (command : String) (originalArgs resolvedArgs : List String) :
    List String :=
  let toks := tokenize_string command
  let consumed := fun i => toks.any (fun t => placeholder_ref originalArgs t == some i)
  toks.map (fun t =>
      match placeholder_ref originalArgs t with
      | some n => resolvedArgs.getD n ""
      | none => t)
    ++ (List.range resolvedArgs.length).filterMap
        (fun i => if consumed i then none else some (resolvedArgs.getD i ""))

/-- The consumption vector (`arguments_copy` of `expand_command`) in which
exactly the entries at indices satisfying `P` are already consumed. -/
def maskArgs (arguments : List String) (P : Nat → Bool) : List (Option String) :=
  (List.range arguments.length).map
    (fun i => if P i then none else some (arguments.getD i ""))

/-- The termination status the OS reports for one spawn attempt: a normal
exit-status (`code()`, `none` for signal termination), or a spawn failure. -/
inductive InvokeResult where
  | status (code : Option Int)
  | spawnFailure (msg : String)
deriving DecidableEq

/-- The result of `execute_command`: a panic (empty token list), a spawn
error (`anyhow` `Err`), or the child's exit status. -/
inductive CmdResult where
  | panicked (msg : String)
  | spawnError (msg : String)
  | status (code : Option Int)
deriving DecidableEq

/-- The observable outcome of one execution path: `Ok(())`, a call to
`process::exit(code)`, an `anyhow` error propagated to the caller, or a
panic. -/
inductive Outcome where
  | ok
  | exited (code : Int)
  | error (msg : String)
  | panicked (msg : String)
deriving DecidableEq

/-- The argument vector handed to the OS: `shellexpand::tilde` applied to the
first token, the rest passed verbatim (`epithet_config.rs:300-303`). -/
def spawn_tokens (tilde : String → String) : List String → List String
  | [] => []
  | t :: rest => tilde t :: rest

/-- `execute_command` (`epithet_config.rs:299-306`), also recording the spawn
attempts it makes: panics via `expect` on an empty token list, otherwise
spawns `tilde(first) :: rest` and reports the status or the spawn error. -/
def execute_command (tilde : String → String) (inv : List String → InvokeResult)
    (tokens : List String) : List (List String) × CmdResult :=
  match tokens with
  | [] => ([], CmdResult.panicked "No command provided")
  | t :: rest =>
    match inv (tilde t :: rest) with
    | InvokeResult.status c => ([tilde t :: rest], CmdResult.status c)
    | InvokeResult.spawnFailure m =>
      ([tilde t :: rest], CmdResult.spawnError ("Failed to execute command: " ++ m))

/-- The `Execution` variants (`epithet_config.rs:188-195`). -/
inductive Execution where
  | Command (command : String)
  | And (items : List String)
  | Or (items : List String)
  | Pipeline (items : List String)
deriving DecidableEq

/-- The loop body of the `Execution::And` arm of `Execution::execute`
(`epithet_config.rs:208-217`): run the items in order, `exit` with
`code().unwrap_or(1)` at the first unsuccessful one. -/
def run_and (tilde : String → String) (inv : List String → InvokeResult)
    (args : List String) (expansions : Expansions) :
    List String → List (List String) × Outcome
  | [] => ([], Outcome.ok)
  | item :: rest =>
    match execute_command tilde inv (get_arguments item args expansions) with
    | (tr, CmdResult.panicked m) => (tr, Outcome.panicked m)
    | (tr, CmdResult.spawnError m) => (tr, Outcome.error m)
    | (tr, CmdResult.status c) =>
      if c = some 0 then
        let r := run_and tilde inv args expansions rest
        (tr ++ r.1, r.2)
      else (tr, Outcome.exited (c.getD 1))

/-- The loop body of the `Execution::Or` arm of `Execution::execute`
(`epithet_config.rs:218-234`): return `Ok(())` at the first success;
otherwise remember the last status and, when the items run out, `exit` with
`last_result.map(code).unwrap_or(Some(1)).unwrap_or(1)`. -/
def run_or (tilde : String → String) (inv : List String → InvokeResult)
    (args : List String) (expansions : Expansions) :
    Option (Option Int) → List String → List (List String) × Outcome
  | last, [] => ([], Outcome.exited ((last.getD (some 1)).getD 1))
  | _, item :: rest =>
    match execute_command tilde inv (get_arguments item args expansions) with
    | (tr, CmdResult.panicked m) => (tr, Outcome.panicked m)
    | (tr, CmdResult.spawnError m) => (tr, Outcome.error m)
    | (tr, CmdResult.status c) =>
      if c = some 0 then (tr, Outcome.ok)
      else
        let r := run_or tilde inv args expansions (some c) rest
        (tr ++ r.1, r.2)

/-- `Execution::execute` (`epithet_config.rs:198-237`).  The `Pipeline` arm is
`todo!()` in the source, which panics with "not yet implemented". -/
def Execution.execute (tilde : String → String) (inv : List String → InvokeResult)
    (self : Execution) (args : List String) (expansions : Expansions) :
    List (List String) × Outcome :=
  match self with
  | Execution.Command command =>
    match execute_command tilde inv (get_arguments command args expansions) with
    | (tr, CmdResult.panicked m) => (tr, Outcome.panicked m)
    | (tr, CmdResult.spawnError m) => (tr, Outcome.error m)
    | (tr, CmdResult.status c) =>
      if c = some 0 then (tr, Outcome.ok) else (tr, Outcome.exited (c.getD 1))
  | Execution.And items => run_and tilde inv args expansions items
  | Execution.Or items => run_or tilde inv args expansions none items
  | Execution.Pipeline _ => ([], Outcome.panicked "not yet implemented")

/-- An alias-local expansion entry (`epithet_config.rs:82-86`). -/
structure Expansion where
  key : String
  value : String
deriving DecidableEq

/-- A sub-alias (`epithet_config.rs:180-186`). -/
structure SubAlias where
  name : String
  execution : Execution
deriving DecidableEq

/-- An alias (`epithet_config.rs:74-80`). -/
structure Alias where
  command : Option Execution
  sub_aliases : Option (List SubAlias)
  expansions : Option (List Expansion)
deriving DecidableEq

/-- `Alias::get_expansions` (`epithet_config.rs:132-145`): clone the global
table and insert every local entry in declaration order. -/
def Alias.get_expansions (a : Alias) (global_expansions : Expansions) : Expansions :=
  (a.expansions.getD []).foldl (fun m e => insertExp m e.key e.value) global_expansions

/-- The fall-through tail of `Alias::execute` (`epithet_config.rs:107-111`):
run the direct command if there is one, else `Ok(())`. -/
def Alias.run_direct (tilde : String → String) (inv : List String → InvokeResult)
    (a : Alias) (args : List String) (global_expansions : Expansions) :
    List (List String) × Outcome :=
  match a.command with
  | some command => command.execute tilde inv args (a.get_expansions global_expansions)
  | none => ([], Outcome.ok)

/-- `Alias::execute` (`epithet_config.rs:88-112`): if there is a first
argument and a sub-alias list, dispatch to the first sub-alias whose name
equals that argument, passing the remaining arguments and the merged
expansion table; otherwise fall through to the direct command. -/
def Alias.execute (tilde : String → String) (inv : List String → InvokeResult)
    (a : Alias) (args : List String) (global_expansions : Expansions) :
    List (List String) × Outcome :=
  match args, a.sub_aliases with
  | sub_command :: rest, some sub_aliases =>
    match sub_aliases.find? (fun sa => sa.name == sub_command) with
    | some sa => sa.execution.execute tilde inv rest (a.get_expansions global_expansions)
    | none => a.run_direct tilde inv args global_expansions
  | _, _ => a.run_direct tilde inv args global_expansions

/-- Modelled from the spec (§4.2): the three-way resolution outcome of one
alias invocation. -/
inductive Resolution where
  | sub (sa : SubAlias) (rest : List String)
  | direct (c : Execution)
  | noop
deriving DecidableEq

/-- Modelled from the spec (§4.2): sub-alias dispatch when the first argument
matches (first match in declaration order), else the direct command, else a
no-op. -/
def resolve_spec (a : Alias) (args : List String) : Resolution :=
  match args with
  | x :: rest =>
    match (a.sub_aliases.getD []).find? (fun sa => sa.name == x) with
    | some sa => Resolution.sub sa rest
    | none =>
      match a.command with
      | some c => Resolution.direct c
      | none => Resolution.noop
  | [] =>
    match a.command with
    | some c => Resolution.direct c
    | none => Resolution.noop

/-- The loaded configuration (`epithet_config.rs:23-29`); the alias map is a
lookup function standing for the `HashMap`. -/
structure EpithetConfig where
  global_expansions : Option Expansions
  aliases : Option (String → Option Alias)

/-- `EpithetConfig::find_alias` (`epithet_config.rs:52-60`). -/
def EpithetConfig.find_alias (c : EpithetConfig) (aliasName : String) : Option Alias :=
  match c.aliases with
  | some m => m aliasName
  | none => none

/-- `EpithetConfig::execute` (`epithet_config.rs:62-71`): run the alias with
the (possibly defaulted-empty) global table, or fail with the
"Alias not found" error. -/
def EpithetConfig.execute (tilde : String → String) (inv : List String → InvokeResult)
    (c : EpithetConfig) (aliasName : String) (args : List String) :
    List (List String) × Outcome :=
  match c.find_alias aliasName with
  | some a => a.execute tilde inv args (c.global_expansions.getD (fun _ => none))
  | none => ([], Outcome.error ("Alias not found: " ++ aliasName))

/-- The final exit code of the whole process for one outcome, per
`main.rs:33-51`: `Ok` ends with 0, an in-sequencer `exit(code)` ends with
that code, a propagated error is printed and the process exits 1, and a Rust
panic aborts the process with code 101. -/
def processExitCode : Outcome → Int
  | Outcome.ok => 0
  | Outcome.exited code => code
  | Outcome.error _ => 1
  | Outcome.panicked _ => 101

/-- The symlink-invocation path of `main` (`main.rs:38-50` with
`alias_execution`, `main.rs:70-73`): run the alias, then map the outcome to
the final process exit code. -/
def run_alias (tilde : String → String) (inv : List String → InvokeResult)
    (c : EpithetConfig) (aliasName : String) (args : List String) :
    List (List String) × Int :=
  let r := c.execute tilde inv aliasName args
  (r.1, processExitCode r.2)

/-- A sequence item whose spawn attempt is answered by the invoker with the
normal termination status `c` (`code()`, so `none` means killed by a
signal); the item's token list must be non-empty, otherwise `execute_command`
panics before spawning. -/
abbrev item_status (tilde : String → String) (inv : List String → InvokeResult)
    (args : List String) (expansions : Expansions) (item : String) (c : Option Int) : Prop :=
  get_arguments item args expansions ≠ []
  ∧ inv (spawn_tokens tilde (get_arguments item args expansions)) = InvokeResult.status c

/-- Identity tilde expansion, for concrete witnesses. -/
def tilde0 : String → String := fun s => s

/-- An invoker whose every child exits with status 0, for concrete witnesses. -/
def inv0 : List String → InvokeResult := fun _ => InvokeResult.status (some 0)

/-- An invoker for the sequencing witnesses: the command `f` exits with code
7, the command `g` is killed by a signal (no code), everything else exits
with status 0. -/
def inv47 : List String → InvokeResult := fun toks =>
  if toks = ["f"] then InvokeResult.status (some 7)
  else if toks = ["g"] then InvokeResult.status none
  else InvokeResult.status (some 0)

/-- The exit codes the items of the `Or` witness fail with under `inv47`. -/
def codes47 : String → Option Int := fun item =>
  if item = "f" then some 7 else if item = "g" then none else some 0

/-- The empty expansion table, for concrete witnesses. -/
def exps0 : Expansions := fun _ => none

/-- A one-entry expansion table mapping `x` to the two-token value
`foo bar`, for concrete counterexamples. -/
def exs_foo_bar : Expansions := fun k => if k = "x" then some "foo bar" else none

/-- A configuration with an empty alias map, for the unknown-alias witness. -/
def cfg_empty : EpithetConfig := ⟨none, some (fun _ => none)⟩

/-- An alias with a direct command, one sub-alias `s`, and two local
expansions that collide on the key `k`, for the merge witness. -/
def alias7 : Alias :=
  ⟨some (Execution.Command "c"), some [⟨"s", Execution.Command "echo sub"⟩],
   some [⟨"k", "v1"⟩, ⟨"k", "v2"⟩]⟩

/-- A global table binding `k` and `kg`, for the merge witness. -/
def g7 : Expansions :=
  fun x => if x = "k" then some "gv" else if x = "kg" then some "gonly" else none

/-- C3: resolution tries sub-alias dispatch on the first argument (first
match in declaration order), then the direct command with all arguments
intact, and otherwise is a successful no-op that spawns nothing; in every
case the dispatched execution receives the merged expansion table. -/
theorem c3_alias_resolution (tilde : String → String) (inv : List String → InvokeResult)
    (a : Alias) (args : List String) (g : Expansions) :
    a.execute tilde inv args g =
      (match resolve_spec a args with
       | Resolution.sub sa rest => sa.execution.execute tilde inv rest (a.get_expansions g)
       | Resolution.direct c => c.execute tilde inv args (a.get_expansions g)
       | Resolution.noop => ([], Outcome.ok))
    ∧ processExitCode Outcome.ok = 0 := by
  refine ⟨?_, rfl⟩
  cases args with
  | nil =>
    simp only [Alias.execute, resolve_spec, Alias.run_direct]
    cases a.command <;> rfl
  | cons x rest =>
    cases hsub : a.sub_aliases with
    | none =>
      simp only [Alias.execute, resolve_spec, hsub, Option.getD_none, List.find?_nil,
        Alias.run_direct]
      cases a.command <;> rfl
    | some subs =>
      cases hf : subs.find? (fun sa => sa.name == x) with
      | none =>
        simp only [Alias.execute, resolve_spec, hsub, Option.getD_some, hf, Alias.run_direct]
        cases a.command <;> rfl
      | some sa =>
        simp only [Alias.execute, resolve_spec, hsub, Option.getD_some, hf]

/-- C6 (amended): executing a `Pipeline` hits the `todo!()` stub, which
panics with "not yet implemented" — it never attempts chaining and never
spawns — rather than returning a structured error. -/
theorem c6_pipeline_amended (tilde : String → String) (inv : List String → InvokeResult)
    (items args : List String) (expansions : Expansions) :
    (Execution.Pipeline items).execute tilde inv args expansions
      = ([], Outcome.panicked "not yet implemented") := rfl

/-- C6 counterexample: at a concrete input the `Pipeline` outcome is the
`todo!()` panic (Rust aborts the process with code 101), not a surfaced
`Outcome.error` line as the claim states. -/
theorem c6_pipeline_counterexample :
    (Execution.Pipeline ["a", "b"]).execute tilde0 inv0 [] exps0
      = ([], Outcome.panicked "not yet implemented")
    ∧ processExitCode (Outcome.panicked "not yet implemented") = 101
    ∧ Outcome.panicked "not yet implemented" ≠ Outcome.error "Pipeline not supported" := by
  refine ⟨rfl, rfl, by decide⟩

/-- Last-binding-wins lookup of the fold of hash-map inserts that
`Alias::get_expansions` performs over the local expansion list. -/
theorem foldl_insertExp_lookup (l : List Expansion) (g : Expansions) (k : String) :
    (l.foldl (fun m e => insertExp m e.key e.value) g) k
      = (match (l.filter (fun e => e.key == k)).getLast? with
         | some e => some e.value
         | none => g k) := by
  induction l using List.reverseRecOn with
  | nil => rfl
  | append_singleton l e ih =>
    rw [List.foldl_append, List.foldl_cons, List.foldl_nil, List.filter_append]
    by_cases hk : e.key = k
    · simp [insertExp, hk, List.getLast?_concat]
    · simp only [List.filter_cons, List.filter_nil]
      rw [if_neg (by simpa using hk)]
      simp only [List.append_nil, insertExp]
      rw [if_neg (fun h => hk h.symm)]
      exact ih

/-- C7: the effective table is the global table overlaid with the alias-local
expansions, local keys (their last binding) taking precedence, and a
dispatched sub-alias receives exactly the parent's merged table. -/
theorem c7_expansion_merge (tilde : String → String) (inv : List String → InvokeResult)
    (a : Alias) (g : Expansions) (k x : String) (rest : List String)
    (subs : List SubAlias) (sa : SubAlias)
    (hsub : a.sub_aliases = some subs)
    (hfind : subs.find? (fun s => s.name == x) = some sa) :
    a.get_expansions g k
      = (match ((a.expansions.getD []).filter (fun e => e.key == k)).getLast? with
         | some e => some e.value
         | none => g k)
    ∧ a.execute tilde inv (x :: rest) g
        = sa.execution.execute tilde inv rest (a.get_expansions g) := by
  constructor
  · exact foldl_insertExp_lookup _ g k
  · simp only [Alias.execute, hsub, hfind]

/-- Witness for C7 at a concrete alias: the colliding local key `k` resolves
to its last local binding `v2` (not the global `gv`), the global-only key
`kg` survives the merge, and dispatching `alias7 s z` runs the sub-alias
with the parent's merged table. -/
theorem c7_expansion_merge_witness :
    (alias7.sub_aliases = some [⟨"s", Execution.Command "echo sub"⟩]
      ∧ ([(⟨"s", Execution.Command "echo sub"⟩ : SubAlias)].find? (fun s => s.name == "s")
          = some ⟨"s", Execution.Command "echo sub"⟩))
    ∧ (alias7.get_expansions g7 "k"
        = (match ((alias7.expansions.getD []).filter (fun e => e.key == "k")).getLast? with
           | some e => some e.value
           | none => g7 "k")
      ∧ alias7.execute tilde0 inv0 ("s" :: ["z"]) g7
          = (Execution.Command "echo sub").execute tilde0 inv0 ["z"] (alias7.get_expansions g7))
    ∧ alias7.get_expansions g7 "k" = some "v2"
    ∧ alias7.get_expansions g7 "kg" = some "gonly" :=
  ⟨⟨rfl, rfl⟩,
   c7_expansion_merge tilde0 inv0 alias7 g7 "k" "s" ["z"] _ _ rfl rfl,
   by decide, by decide⟩

/-- C8: executing an alias name absent from the alias set yields the
"Alias not found" error, the process exits non-zero (main prints the error
and exits 1), and no spawn attempt is made. -/
theorem c8_alias_not_found (tilde : String → String) (inv : List String → InvokeResult)
    (c : EpithetConfig) (aliasName : String) (args : List String)
    (h : c.find_alias aliasName = none) :
    c.execute tilde inv aliasName args
        = ([], Outcome.error ("Alias not found: " ++ aliasName))
    ∧ run_alias tilde inv c aliasName args = ([], 1)
    ∧ (1 : Int) ≠ 0 := by
  refine ⟨?_, ?_, by decide⟩
  · simp only [EpithetConfig.execute, h]
  · simp only [run_alias, EpithetConfig.execute, h, processExitCode]

/-- Witness for C8: looking up `git` in an empty alias map fails, the
execution reports the error with an empty spawn trace, and the process exit
code is 1. -/
theorem c8_alias_not_found_witness :
    cfg_empty.find_alias "git" = none
    ∧ (cfg_empty.execute tilde0 inv0 "git" ["st"]
          = ([], Outcome.error ("Alias not found: " ++ "git"))
      ∧ run_alias tilde0 inv0 cfg_empty "git" ["st"] = ([], 1)
      ∧ (1 : Int) ≠ 0) :=
  ⟨rfl, c8_alias_not_found tilde0 inv0 cfg_empty "git" ["st"] rfl⟩

/-- C10: `execute_command` panics (`expect("No command provided")`) on an
empty token list, and the precondition is violated through the public
execute path: a `Command` whose template tokenizes to no tokens, invoked
with no arguments, panics instead of erroring or succeeding. -/
theorem c10_empty_command_panics (tilde : String → String) (inv : List String → InvokeResult)
    (expansions : Expansions) (cmd : String) (h : tokenize_string cmd = []) :
    execute_command tilde inv [] = ([], CmdResult.panicked "No command provided")
    ∧ (Execution.Command cmd).execute tilde inv [] expansions
        = ([], Outcome.panicked "No command provided") := by
  refine ⟨rfl, ?_⟩
  have hga : get_arguments cmd [] expansions = [] := by
    simp [get_arguments, argument_pre_pass, expand_command, h]
  simp only [Execution.execute, hga, execute_command]

/-- Witness for C10: the whitespace-only template tokenizes to no tokens and
its `Command` execution panics. -/
theorem c10_empty_command_panics_witness :
    tokenize_string " " = []
    ∧ (execute_command tilde0 inv0 [] = ([], CmdResult.panicked "No command provided")
      ∧ (Execution.Command " ").execute tilde0 inv0 [] exps0
          = ([], Outcome.panicked "No command provided")) :=
  ⟨by decide, c10_empty_command_panics tilde0 inv0 exps0 " " (by decide)⟩

/-- Folding the scanner over quote-free and backslash-free input from
quiescent flags behaves as the whitespace word scan. -/
theorem tokenize_foldl_words (cs : List Char) :
    ∀ (toks : List String) (cur : List Char),
      (∀ c ∈ cs, c ≠ '\"' ∧ c ≠ '\\') →
      tokenize_finish (cs.foldl tokenize_step ⟨toks, cur, false, false⟩)
        = toks ++ wordsAux cs cur := by
  induction cs with
  | nil =>
    intro toks cur _
    simp only [List.foldl_nil, tokenize_finish, wordsAux]
    cases hcur : cur.isEmpty <;> simp
  | cons c cs ih =>
    intro toks cur h
    obtain ⟨hq, hb⟩ := h c (List.mem_cons_self _ _)
    have hrest : ∀ x ∈ cs, x ≠ '\"' ∧ x ≠ '\\' :=
      fun x hx => h x (List.mem_cons_of_mem _ hx)
    rw [List.foldl_cons]
    by_cases hw : isWhitespaceRust c
    · have hstep : tokenize_step ⟨toks, cur, false, false⟩ c
          = if cur.isEmpty then ⟨toks, cur, false, false⟩
            else ⟨toks ++ [String.mk cur], [], false, false⟩ := by
        simp [tokenize_step, hb, hq, hw]
      cases hcur : cur.isEmpty
      · rw [hstep, if_neg (by simp [hcur]), ih _ [] hrest]
        simp [wordsAux, hw, hcur, List.append_assoc]
      · have hcurnil : cur = [] := List.isEmpty_iff.mp hcur
        subst hcurnil
        rw [hstep]
        simp only [List.isEmpty_nil, if_true]
        rw [ih _ [] hrest]
        simp [wordsAux, hw]
    · have hstep : tokenize_step ⟨toks, cur, false, false⟩ c
          = ⟨toks, cur ++ [c], false, false⟩ := by
        simp [tokenize_step, hb, hq, hw]
      rw [hstep, ih _ (cur ++ [c]) hrest]
      simp [wordsAux, hw]

/-- C9: on input with no double quotes and no backslashes the tokenizer is
exactly the whitespace split (empty fields dropped), and the empty input
tokenizes to the empty sequence. -/
theorem c9_tokenizer_is_split (s : String)
    (h : ∀ c ∈ s.data, c ≠ '\"' ∧ c ≠ '\\') :
    tokenize_string s = splitWhitespaceSpec s ∧ tokenize_string "" = [] :=
  ⟨tokenize_foldl_words s.data [] [] h, by decide⟩

/-- Witness for C9 on the concrete quote-free input `ab  cd`. -/
theorem c9_tokenizer_is_split_witness :
    (∀ c ∈ ("ab  cd" : String).data, c ≠ '\"' ∧ c ≠ '\\')
    ∧ (tokenize_string "ab  cd" = splitWhitespaceSpec "ab  cd" ∧ tokenize_string "" = [])
    ∧ tokenize_string "ab  cd" = ["ab", "cd"] :=
  ⟨by decide, c9_tokenizer_is_split "ab  cd" (by decide), by decide⟩

/-- The word scan over whitespace-free input accumulates one single word. -/
theorem wordsAux_no_ws : ∀ (cs cur : List Char), (∀ c ∈ cs, isWhitespaceRust c = false) →
    wordsAux cs cur = if (cur ++ cs).isEmpty then [] else [String.mk (cur ++ cs)]
  | [], cur, _ => by simp [wordsAux]
  | c :: cs, cur, h => by
    have hc := h c (List.mem_cons_self _ _)
    have hrest : ∀ x ∈ cs, isWhitespaceRust x = false :=
      fun x hx => h x (List.mem_cons_of_mem _ hx)
    rw [wordsAux, if_neg (by simp [hc]), wordsAux_no_ws cs (cur ++ [c]) hrest]
    simp [List.append_assoc]

/-- A non-empty string with no whitespace, quote, or backslash characters
tokenizes to itself as the single token. -/
theorem tokenize_no_special_single (a : String) (hne : a.data ≠ [])
    (h : ∀ c ∈ a.data, isWhitespaceRust c = false ∧ c ≠ '\"' ∧ c ≠ '\\') :
    tokenize_string a = [a] := by
  have h1 : tokenize_string a = wordsAux a.data [] :=
    tokenize_foldl_words a.data [] [] (fun c hc => (h c hc).2)
  rw [h1, wordsAux_no_ws a.data [] (fun c hc => (h c hc).1)]
  simp [List.isEmpty_iff, hne]

/-- C2 (amended): the pre-pass works elementwise; a non-`@` argument passes
through as the single literal token; an `@` argument has all leading `@`
characters stripped, the remainder is looked up, and the found value — or,
on a miss, the original argument itself — is re-tokenized, which on a miss
yields the single literal token whenever the argument has no whitespace,
quote, or backslash characters. -/
theorem c2_pre_pass_amended (e : Expansions) (a : String) (rest : List String) (v : String) :
    argument_pre_pass (a :: rest) e = argument_pre_pass [a] e ++ argument_pre_pass rest e
    ∧ (starts_with_char a '@' = false → argument_pre_pass [a] e = [a])
    ∧ (starts_with_char a '@' = true →
        argument_pre_pass [a] e = tokenize_string ((e (trim_start_matches_at a)).getD a))
    ∧ (starts_with_char a '@' = true → e (trim_start_matches_at a) = some v →
        argument_pre_pass [a] e = tokenize_string v)
    ∧ (starts_with_char a '@' = true → e (trim_start_matches_at a) = none →
        (∀ c ∈ a.data, isWhitespaceRust c = false ∧ c ≠ '\"' ∧ c ≠ '\\') →
        argument_pre_pass [a] e = [a]) := by
  refine ⟨by simp [argument_pre_pass], ?_, ?_, ?_, ?_⟩
  · intro h; simp [argument_pre_pass, h]
  · intro h; simp [argument_pre_pass, h]
  · intro h hv; simp [argument_pre_pass, h, hv]
  · intro h hnone hchars
    have hne : a.data ≠ [] := by
      unfold starts_with_char at h
      intro hd
      rw [hd] at h
      exact Bool.false_ne_true h
    simp only [argument_pre_pass, List.flatMap_cons, List.flatMap_nil, List.append_nil, h,
      if_true, hnone, Option.getD_none]
    exact tokenize_no_special_single a hne hchars

/-- Witness for C2 (amended) at concrete inputs: `@x` expands through the
table to the two re-tokenized tokens, `@missing` misses and stays a single
literal token, and `y` passes through. -/
theorem c2_pre_pass_amended_witness :
    argument_pre_pass ["@x", "y"] exs_foo_bar
        = argument_pre_pass ["@x"] exs_foo_bar ++ argument_pre_pass ["y"] exs_foo_bar
    ∧ argument_pre_pass ["@x"] exs_foo_bar = tokenize_string "foo bar"
    ∧ argument_pre_pass ["@missing"] exs_foo_bar = ["@missing"]
    ∧ argument_pre_pass ["y"] exs_foo_bar = ["y"]
    ∧ argument_pre_pass ["@x"] exs_foo_bar = ["foo", "bar"] :=
  ⟨(c2_pre_pass_amended exs_foo_bar "@x" ["y"] "foo bar").1,
   (c2_pre_pass_amended exs_foo_bar "@x" [] "foo bar").2.2.2.1 (by decide) (by decide),
   (c2_pre_pass_amended exs_foo_bar "@missing" [] "").2.2.2.2 (by decide) (by decide) (by decide),
   (c2_pre_pass_amended exs_foo_bar "y" [] "").2.1 (by decide),
   by decide⟩

/-- C2 counterexample: a missed lookup re-tokenizes the original argument,
so `@a b` (one argument containing a space) becomes two tokens, not the
single literal token; and `@@x` has both leading `@`s stripped, so it hits
the key `x` instead of staying the literal `@@x`. -/
theorem c2_pre_pass_counterexample :
    starts_with_char "@a b" '@' = true
    ∧ argument_pre_pass ["@a b"] exps0 = ["@a", "b"]
    ∧ argument_pre_pass ["@a b"] exps0 ≠ ["@a b"]
    ∧ argument_pre_pass ["@@x"] exs_foo_bar = ["foo", "bar"]
    ∧ argument_pre_pass ["@@x"] exs_foo_bar ≠ ["@@x"] := by decide

/-- `run_and` over all-succeeding items spawns every item, in order, and
returns `Ok`. -/
theorem run_and_all_ok (tilde : String → String) (inv : List String → InvokeResult)
    (args : List String) (expansions : Expansions) :
    ∀ items : List String,
      (∀ item ∈ items, item_status tilde inv args expansions item (some 0)) →
      run_and tilde inv args expansions items
        = (items.map (fun item => spawn_tokens tilde (get_arguments item args expansions)),
           Outcome.ok)
  | [], _ => rfl
  | item :: rest, h => by
    obtain ⟨hne, hst⟩ := h item (List.mem_cons_self _ _)
    cases hg : get_arguments item args expansions with
    | nil => exact absurd hg hne
    | cons t r =>
      rw [hg] at hst
      simp only [spawn_tokens] at hst
      have ih := run_and_all_ok tilde inv args expansions rest
        (fun i hi => h i (List.mem_cons_of_mem _ hi))
      simp [run_and, hg, execute_command, hst, ih, spawn_tokens]

/-- `run_and` stops at the first failing item: the items before it all run,
the failing item runs, nothing after it runs, and the outcome is
`exit(code.unwrap_or(1))`. -/
theorem run_and_first_fail (tilde : String → String) (inv : List String → InvokeResult)
    (args : List String) (expansions : Expansions) :
    ∀ (pre : List String) (bad : String) (post : List String) (c : Option Int),
      (∀ item ∈ pre, item_status tilde inv args expansions item (some 0)) →
      item_status tilde inv args expansions bad c → c ≠ some 0 →
      run_and tilde inv args expansions (pre ++ bad :: post)
        = ((pre ++ [bad]).map
             (fun item => spawn_tokens tilde (get_arguments item args expansions)),
           Outcome.exited (c.getD 1))
  | [], bad, post, c, _, hbad, hc0 => by
    obtain ⟨hne, hst⟩ := hbad
    cases hg : get_arguments bad args expansions with
    | nil => exact absurd hg hne
    | cons t r =>
      rw [hg] at hst
      simp only [spawn_tokens] at hst
      simp [run_and, hg, execute_command, hst, hc0, spawn_tokens]
  | item :: pre, bad, post, c, h, hbad, hc0 => by
    obtain ⟨hne, hst⟩ := h item (List.mem_cons_self _ _)
    cases hg : get_arguments item args expansions with
    | nil => exact absurd hg hne
    | cons t r =>
      rw [hg] at hst
      simp only [spawn_tokens] at hst
      have ih := run_and_first_fail tilde inv args expansions pre bad post c
        (fun i hi => h i (List.mem_cons_of_mem _ hi)) hbad hc0
      simp [run_and, hg, execute_command, hst, ih, spawn_tokens]

/-- C4: an `And` execution runs its items strictly in order; the first item
with a non-zero status terminates the process with that code (1 when no
code is available) and no later item is invoked; if all items succeed the
result is success; and a single `Command` behaves exactly like the
one-element `And`. -/
theorem c4_and_short_circuit (tilde : String → String) (inv : List String → InvokeResult)
    (args : List String) (expansions : Expansions) :
    (∀ items : List String,
       (∀ item ∈ items, item_status tilde inv args expansions item (some 0)) →
       (Execution.And items).execute tilde inv args expansions
         = (items.map (fun item => spawn_tokens tilde (get_arguments item args expansions)),
            Outcome.ok))
    ∧ (∀ (pre : List String) (bad : String) (post : List String) (c : Option Int),
        (∀ item ∈ pre, item_status tilde inv args expansions item (some 0)) →
        item_status tilde inv args expansions bad c → c ≠ some 0 →
        (Execution.And (pre ++ bad :: post)).execute tilde inv args expansions
          = ((pre ++ [bad]).map
               (fun item => spawn_tokens tilde (get_arguments item args expansions)),
             Outcome.exited (c.getD 1)))
    ∧ (∀ t, (Execution.Command t).execute tilde inv args expansions
          = (Execution.And [t]).execute tilde inv args expansions) := by
  refine ⟨run_and_all_ok tilde inv args expansions,
          run_and_first_fail tilde inv args expansions, ?_⟩
  intro t
  show _ = run_and tilde inv args expansions [t]
  simp only [Execution.execute, run_and]
  cases hc : execute_command tilde inv (get_arguments t args expansions) with
  | mk tr r =>
    cases r with
    | panicked m => rfl
    | spawnError m => rfl
    | status c =>
      by_cases h0 : c = some 0
      · simp [h0, run_and]
      · simp [h0]

/-- Witness for C4 under `inv47`: `a` and `b` succeed so `And ["a","b"]` runs
both and is `Ok`; in `And ["a","f","c"]` the failing `f` (code 7) terminates
with code 7 and `c` is never spawned; `Command "a"` equals `And ["a"]`. -/
theorem c4_and_short_circuit_witness :
    ((∀ item ∈ ["a", "b"], item_status tilde0 inv47 [] exps0 item (some 0))
      ∧ (Execution.And ["a", "b"]).execute tilde0 inv47 [] exps0
          = ([["a"], ["b"]], Outcome.ok))
    ∧ ((∀ item ∈ ["a"], item_status tilde0 inv47 [] exps0 item (some 0))
      ∧ item_status tilde0 inv47 [] exps0 "f" (some 7)
      ∧ (some 7 : Option Int) ≠ some 0
      ∧ (Execution.And ["a", "f", "c"]).execute tilde0 inv47 [] exps0
          = ([["a"], ["f"]], Outcome.exited 7))
    ∧ (Execution.Command "a").execute tilde0 inv47 [] exps0
        = (Execution.And ["a"]).execute tilde0 inv47 [] exps0 := by
  have h := c4_and_short_circuit tilde0 inv47 [] exps0
  refine ⟨⟨by decide, ?_⟩, ⟨by decide, by decide, by decide, ?_⟩, h.2.2 "a"⟩
  · exact (h.1 ["a", "b"] (by decide)).trans (by decide)
  · exact (h.2.1 ["a"] "f" ["c"] (some 7) (by decide) (by decide) (by decide)).trans (by decide)

/-- `run_or` stops at the first succeeding item, whatever the accumulated
last status is. -/
theorem run_or_first_success (tilde : String → String) (inv : List String → InvokeResult)
    (args : List String) (expansions : Expansions) (cs : String → Option Int) :
    ∀ (pre : List String) (good : String) (post : List String) (last0 : Option (Option Int)),
      (∀ item ∈ pre,
        item_status tilde inv args expansions item (cs item) ∧ cs item ≠ some 0) →
      item_status tilde inv args expansions good (some 0) →
      run_or tilde inv args expansions last0 (pre ++ good :: post)
        = ((pre ++ [good]).map
             (fun item => spawn_tokens tilde (get_arguments item args expansions)),
           Outcome.ok)
  | [], good, post, last0, _, hgood => by
    obtain ⟨hne, hst⟩ := hgood
    cases hg : get_arguments good args expansions with
    | nil => exact absurd hg hne
    | cons t r =>
      rw [hg] at hst
      simp only [spawn_tokens] at hst
      simp [run_or, hg, execute_command, hst, spawn_tokens]
  | item :: pre, good, post, last0, h, hgood => by
    obtain ⟨⟨hne, hst⟩, hc0⟩ := h item (List.mem_cons_self _ _)
    cases hg : get_arguments item args expansions with
    | nil => exact absurd hg hne
    | cons t r =>
      rw [hg] at hst
      simp only [spawn_tokens] at hst
      have ih := run_or_first_success tilde inv args expansions cs pre good post
        (some (cs item)) (fun i hi => h i (List.mem_cons_of_mem _ hi)) hgood
      simp [run_or, hg, execute_command, hst, hc0, ih, spawn_tokens]

/-- `run_or` over all-failing items attempts every item in order and exits
with the last item's code, 1 when that code is unavailable. -/
theorem run_or_all_fail (tilde : String → String) (inv : List String → InvokeResult)
    (args : List String) (expansions : Expansions) (cs : String → Option Int) :
    ∀ (pre : List String) (lastI : String) (last0 : Option (Option Int)),
      (∀ item ∈ pre,
        item_status tilde inv args expansions item (cs item) ∧ cs item ≠ some 0) →
      item_status tilde inv args expansions lastI (cs lastI) → cs lastI ≠ some 0 →
      run_or tilde inv args expansions last0 (pre ++ [lastI])
        = ((pre ++ [lastI]).map
             (fun item => spawn_tokens tilde (get_arguments item args expansions)),
           Outcome.exited ((cs lastI).getD 1))
  | [], lastI, last0, _, hlast, hc0 => by
    obtain ⟨hne, hst⟩ := hlast
    cases hg : get_arguments lastI args expansions with
    | nil => exact absurd hg hne
    | cons t r =>
      rw [hg] at hst
      simp only [spawn_tokens] at hst
      simp [run_or, hg, execute_command, hst, hc0, spawn_tokens]
  | item :: pre, lastI, last0, h, hlast, hc0 => by
    obtain ⟨⟨hne, hst⟩, hci⟩ := h item (List.mem_cons_self _ _)
    cases hg : get_arguments item args expansions with
    | nil => exact absurd hg hne
    | cons t r =>
      rw [hg] at hst
      simp only [spawn_tokens] at hst
      have ih := run_or_all_fail tilde inv args expansions cs pre lastI
        (some (cs item)) (fun i hi => h i (List.mem_cons_of_mem _ hi)) hlast hc0
      simp [run_or, hg, execute_command, hst, hci, ih, spawn_tokens]

/-- C5: an `Or` execution runs its items strictly in order; the first item
with a zero status yields success and skips the rest; if every item fails
the process terminates with the last attempted item's code, with 1 when
that code is unavailable (signal) and with 1 on an empty item list. -/
theorem c5_or_short_circuit (tilde : String → String) (inv : List String → InvokeResult)
    (args : List String) (expansions : Expansions) (cs : String → Option Int) :
    (∀ (pre : List String) (good : String) (post : List String),
       (∀ item ∈ pre,
         item_status tilde inv args expansions item (cs item) ∧ cs item ≠ some 0) →
       item_status tilde inv args expansions good (some 0) →
       (Execution.Or (pre ++ good :: post)).execute tilde inv args expansions
         = ((pre ++ [good]).map
              (fun item => spawn_tokens tilde (get_arguments item args expansions)),
            Outcome.ok))
    ∧ (∀ (pre : List String) (lastI : String),
        (∀ item ∈ pre,
          item_status tilde inv args expansions item (cs item) ∧ cs item ≠ some 0) →
        item_status tilde inv args expansions lastI (cs lastI) → cs lastI ≠ some 0 →
        (Execution.Or (pre ++ [lastI])).execute tilde inv args expansions
          = ((pre ++ [lastI]).map
               (fun item => spawn_tokens tilde (get_arguments item args expansions)),
             Outcome.exited ((cs lastI).getD 1)))
    ∧ (Execution.Or []).execute tilde inv args expansions = ([], Outcome.exited 1) :=
  ⟨fun pre good post h hg =>
     run_or_first_success tilde inv args expansions cs pre good post none h hg,
   fun pre lastI h hl hc =>
     run_or_all_fail tilde inv args expansions cs pre lastI none h hl hc,
   rfl⟩

/-- Witness for C5 under `inv47`: in `Or ["f","a","c"]` the failing `f` is
attempted, the succeeding `a` short-circuits and `c` never runs; in
`Or ["f","g"]` every item fails and the signal-killed last item `g` makes
the process exit 1; the empty `Or` exits 1. -/
theorem c5_or_short_circuit_witness :
    ((∀ item ∈ ["f"],
        item_status tilde0 inv47 [] exps0 item (codes47 item) ∧ codes47 item ≠ some 0)
      ∧ item_status tilde0 inv47 [] exps0 "a" (some 0)
      ∧ (Execution.Or ["f", "a", "c"]).execute tilde0 inv47 [] exps0
          = ([["f"], ["a"]], Outcome.ok))
    ∧ (item_status tilde0 inv47 [] exps0 "g" (codes47 "g")
      ∧ codes47 "g" ≠ some 0
      ∧ (Execution.Or ["f", "g"]).execute tilde0 inv47 [] exps0
          = ([["f"], ["g"]], Outcome.exited 1))
    ∧ (Execution.Or []).execute tilde0 inv47 [] exps0 = ([], Outcome.exited 1) := by
  have h := c5_or_short_circuit tilde0 inv47 [] exps0 codes47
  refine ⟨⟨by decide, by decide, ?_⟩, ⟨by decide, by decide, ?_⟩, h.2.2⟩
  · exact (h.1 ["f"] "a" ["c"] (by decide) (by decide)).trans (by decide)
  · exact (h.2.1 ["f"] "g" (by decide) (by decide) (by decide)).trans (by decide)

/-- Consuming an in-bounds index in the consumption vector adds it to the
consumed index set. -/
theorem maskArgs_set (arguments : List String) (P : Nat → Bool) (n : Nat) :
    (maskArgs arguments P).set n none = maskArgs arguments (fun i => P i || n == i) := by
  unfold maskArgs
  apply List.ext_getElem
  · simp
  · intro i h1 h2
    rw [List.getElem_set]
    by_cases hni : n = i
    · subst hni
      simp
    · simp [hni]

/-- The initial `arguments_copy` is the consumption vector with nothing
consumed. -/
theorem map_some_eq_maskArgs (arguments : List String) :
    arguments.map some = maskArgs arguments (fun _ => false) := by
  unfold maskArgs
  apply List.ext_getElem
  · simp
  · intro i h1 h2
    have hi : i < arguments.length := by simpa using h1
    simp [List.getD_eq_getElem?_getD, List.getElem?_eq_getElem hi]

/-- The fold of `expand_step` substitutes each token declaratively and adds
exactly the referenced in-bounds indices to the consumed set. -/
theorem foldl_expand_step (arguments : List String) :
    ∀ (toks : List String) (P : Nat → Bool) (out : List String),
      toks.foldl (expand_step arguments) (maskArgs arguments P, out)
        = (maskArgs arguments
             (fun i => P i || toks.any (fun t => placeholder_ref arguments t == some i)),
           out ++ toks.map (fun t =>
             match placeholder_ref arguments t with
             | some n => arguments.getD n ""
             | none => t))
  | [], P, out => by
    simp [maskArgs]
  | t :: ts, P, out => by
    cases hpi : placeholder_index t with
    | none =>
      have href : placeholder_ref arguments t = none := by
        simp [placeholder_ref, hpi]
      have hstep : expand_step arguments (maskArgs arguments P, out) t
          = (maskArgs arguments P, out ++ [t]) := by
        simp [expand_step, hpi]
      rw [List.foldl_cons, hstep, foldl_expand_step arguments ts P (out ++ [t])]
      simp only [Prod.mk.injEq]
      refine ⟨?_, by simp [href]⟩
      unfold maskArgs
      congr 1
      funext i
      simp [href]
    | some n =>
      by_cases hn : n < arguments.length
      · have href : placeholder_ref arguments t = some n := by
          simp [placeholder_ref, hpi, hn]
        have hstep : expand_step arguments (maskArgs arguments P, out) t
            = ((maskArgs arguments P).set n none, out ++ [arguments.getD n ""]) := by
          simp [expand_step, hpi, hn]
        rw [List.foldl_cons, hstep, maskArgs_set arguments P n,
          foldl_expand_step arguments ts _ (out ++ [arguments.getD n ""])]
        simp only [Prod.mk.injEq]
        refine ⟨?_, by simp [href]⟩
        unfold maskArgs
        congr 1
        funext i
        have hsome : (some n == some i) = (n == i) := rfl
        simp [href, hsome, Bool.or_assoc]
      · have href : placeholder_ref arguments t = none := by
          simp [placeholder_ref, hpi, hn]
        have hstep : expand_step arguments (maskArgs arguments P, out) t
            = (maskArgs arguments P, out ++ [t]) := by
          simp [expand_step, hpi, hn]
        rw [List.foldl_cons, hstep, foldl_expand_step arguments ts P (out ++ [t])]
        simp only [Prod.mk.injEq]
        refine ⟨?_, by simp [href]⟩
        unfold maskArgs
        congr 1
        funext i
        simp [href]

/-- C1 (amended): the template pass substitutes and bounds-checks `{N}`
against the token list `expand_command` receives — the resolved arguments
produced by the pre-pass, not the caller's original argument list — marks
those indices consumed, passes other tokens through literally, and appends
the unconsumed resolved arguments in order. -/
theorem c1_template_pass_amended (command : String) (arguments args : List String)
    (e : Expansions) :
    expand_command command arguments = template_pass_spec command arguments arguments
    ∧ get_arguments command args e
        = template_pass_spec command (argument_pre_pass args e) (argument_pre_pass args e) := by
  have main : ∀ bs : List String,
      expand_command command bs = template_pass_spec command bs bs := by
    intro bs
    simp only [expand_command, template_pass_spec]
    rw [map_some_eq_maskArgs, foldl_expand_step]
    simp only [List.nil_append, maskArgs, List.filterMap_map]
    congr 1
  exact ⟨main arguments, main (argument_pre_pass args e)⟩

/-- C1 counterexample: with expansions `x -> "foo bar"`, template `{1}` and
caller arguments `["@x"]`, index 1 is out of bounds for the original
one-element argument list but in bounds for the two resolved tokens, so the
code substitutes `bar` and appends the unconsumed `foo`, while the claim
demands the literal `{1}` followed by both resolved tokens. -/
theorem c1_template_pass_counterexample :
    get_arguments "{1}" ["@x"] exs_foo_bar = ["bar", "foo"]
    ∧ argument_pre_pass ["@x"] exs_foo_bar = ["foo", "bar"]
    ∧ template_pass_spec "{1}" ["@x"] (argument_pre_pass ["@x"] exs_foo_bar)
        = ["{1}", "foo", "bar"]
    ∧ (["bar", "foo"] : List String) ≠ ["{1}", "foo", "bar"] := by decide

end Epithet
